import Mathlib

/-
Verification of the DFPWM1a streaming decoder of this repository.

The decoder is the class DFPWM in src/script.js (lines 39-87).  It is a
stateful transducer: five mutable fields (response, level, lastbit,
flastlevel, lpflevel) persist across calls to decode, and decode turns
each input byte into 8 floating-point samples, one per bit, LSB-first.

Embedding conventions:
- JavaScript numbers holding the decoder state are mathematical integers
  here (Int).  All intermediate values stay far inside the signed 32-bit
  range for the constant bounds involved, so the JS coercions performed
  by the bitwise operators are the identity on every value that occurs.
- The JS arithmetic right shift x >> n is floor division by 2 ^ n, which
  for Int is Euclidean division by the positive number 2 ^ n.
- The emitted float sample lpflevel * SCALE is exact in binary floating
  point (an integer of magnitude at most a few hundred times 1/128), so
  samples are modelled as exact rationals.
- decode returns the trace of lpflevel values it stored into the output
  array; sampleOfLevel scales one stored value to the emitted sample and
  DFPWM.decodeSamples is the emitted float sequence of one call.

The streaming playback pipeline around the decoder (playUrlStreamed and
stop in the unnamed source file, lines 411-538) is embedded as a
function over an explicit trace of awaited events further below.
-/

/-- JS x >> n on the in-range values that occur in the decoder: the
arithmetic (sign-preserving) right shift, i.e. floor division by 2 ^ n.
Int division is Euclidean division, which is floor division whenever the
divisor is positive. -/
def sar (x : Int) (n : Nat) : Int := x / 2 ^ n

/-- this.RESP_PREC = 10 (src/script.js line 47). -/
def RESP_PREC : Nat := 10

/-- this.LPF_STRENGTH = 140 (src/script.js line 48). -/
def LPF_STRENGTH : Int := 140

/-- this.MIN_RESPONSE = 2 << (RESP_PREC - 8) = 8 (src/script.js line 49). -/
def MIN_RESPONSE : Int := Int.ofNat (2 <<< (RESP_PREC - 8))

/-- this.MAX_RESPONSE = (1 << RESP_PREC) - 1 = 1023 (src/script.js line 50). -/
def MAX_RESPONSE : Int := Int.ofNat ((1 <<< RESP_PREC) - 1)

/-- this.RESP_HALF = 1 << (RESP_PREC - 1) = 512 (src/script.js line 51). -/
def RESP_HALF : Int := Int.ofNat (1 <<< (RESP_PREC - 1))

/-- this.SCALE = 1 / 128.0 (src/script.js line 52). -/
def SCALE : ℚ := 1 / 128

/-- The five mutable fields of a DFPWM decoder instance
(src/script.js lines 41-45). -/
structure DFPWM where
  response : Int
  level : Int
  lastbit : Bool
  flastlevel : Int
  lpflevel : Int
deriving Repr, DecidableEq

/-- The state installed by the constructor (src/script.js lines 41-45):
all numeric fields 0, lastbit false. -/
def DFPWM.new : DFPWM :=
  { response := 0, level := 0, lastbit := false, flastlevel := 0, lpflevel := 0 }

/-- One iteration of the inner bit loop of decode
(src/script.js lines 62-81): integrator update with the one-short
correction, adaptive response step with clamp, low-pass blend, low-pass
filter update, lastbit update.  The emitted sample of this iteration is
the lpflevel field of the returned state, scaled by SCALE. -/
def DFPWM.decodeBit (s : DFPWM) (bit : Bool) : DFPWM :=
  let target : Int := if bit then 127 else -128
  let level := s.level + sar (s.response * (target - s.level) + RESP_HALF) RESP_PREC
  let level := if level = target - 1 then level + 1 else level
  let same : Bool := bit == s.lastbit
  let rtarget : Int := if same then MAX_RESPONSE else 0
  let response :=
    if s.response ≠ rtarget then
      min (max (s.response + if same then 1 else -1) MIN_RESPONSE) MAX_RESPONSE
    else s.response
  let blended := if same then level else sar (s.flastlevel + level + 1) 1
  let lpflevel := s.lpflevel + sar (LPF_STRENGTH * (blended - s.lpflevel) + 0x80) 8
  { response := response, level := level, lastbit := bit,
    flastlevel := level, lpflevel := lpflevel }

/-- Run decodeBit over a list of bits, returning the final state and the
trace of lpflevel values stored into the output array, in order. -/
def DFPWM.decodeBits : DFPWM → List Bool → DFPWM × List Int
  | s, [] => (s, [])
  | s, b :: bs =>
    let s1 := s.decodeBit b
    let r := s1.decodeBits bs
    (r.1, s1.lpflevel :: r.2)

/-- The bit sequence the inner loop of decode extracts from one byte
(src/script.js line 62): n iterations of bit = (byte & 1) !== 0 followed
by byte >>= 1, i.e. least significant bit first. -/
def byteBitsAux : Nat → Nat → List Bool
  | _, 0 => []
  | byte, n + 1 => decide (byte % 2 = 1) :: byteBitsAux (byte / 2) n

/-- The 8 bits of one byte, LSB-first, as the double loop of decode
consumes them. -/
def byteBits (byte : Nat) : List Bool := byteBitsAux byte 8

/-- DFPWM.prototype.decode (src/script.js lines 55-86) on one chunk:
processes the bytes in order, 8 bits per byte LSB-first, and returns the
final state (written back by Object.assign) together with the trace of
lpflevel values stored into the output Float32Array. -/
def DFPWM.decode : DFPWM → List Nat → DFPWM × List Int
  | s, [] => (s, [])
  | s, byte :: rest =>
    let r1 := s.decodeBits (byteBits byte)
    let r2 := r1.1.decode rest
    (r2.1, r1.2 ++ r2.2)

/-- One stored lpflevel value scaled to the float sample the decoder
emits: out[pos++] = lpflevel * SCALE (src/script.js line 79), exact in
floating point for the magnitudes that occur. -/
def sampleOfLevel (l : Int) : ℚ := (l : ℚ) * SCALE

/-- The float sample sequence returned by one decode call. -/
def DFPWM.decodeSamples (s : DFPWM) (bytes : List Nat) : List ℚ :=
  ((s.decode bytes).2).map sampleOfLevel

/-- Feeding several chunks one decode call at a time to the same decoder
instance, concatenating the outputs: the multi-call streaming form. -/
def DFPWM.decodeChunks : DFPWM → List (List Nat) → DFPWM × List Int
  | s, [] => (s, [])
  | s, c :: cs =>
    let r1 := s.decode c
    let r2 := r1.1.decodeChunks cs
    (r2.1, r1.2 ++ r2.2)

/-- The float samples accumulated across a sequence of chunked decode
calls on one decoder instance. -/
def DFPWM.decodeChunksSamples (s : DFPWM) (chunks : List (List Nat)) : List ℚ :=
  ((s.decodeChunks chunks).2).map sampleOfLevel

/-- The per-bit algorithm as the spec states it (spec.md section 4.1,
steps 1-6), written from the spec text for comparison with the code
embedding: target from the bit; integrator update with the
one-unit-short edge case; adaptive response stepped by one toward its
target and clamped only when it differed from the target; low-pass
blend input, level on a same-polarity bit and the rounded average on a
transition; low-pass filter update; lastBit update. -/
def specBitStep (s : DFPWM) (bit : Bool) : DFPWM :=
  let target : Int := if bit then 127 else -128
  let levelUpdated := s.level + sar (s.response * (target - s.level) + RESP_HALF) RESP_PREC
  let levelCorrected := if levelUpdated = target - 1 then levelUpdated + 1 else levelUpdated
  let same : Bool := bit == s.lastbit
  let responseTarget : Int := if same then MAX_RESPONSE else 0
  let responseNew :=
    if s.response ≠ responseTarget then
      min (max (s.response + if same then 1 else -1) MIN_RESPONSE) MAX_RESPONSE
    else s.response
  let blendInput := if same then levelCorrected else sar (s.flastlevel + levelCorrected + 1) 1
  let lowPassNew := s.lpflevel + sar (LPF_STRENGTH * (blendInput - s.lpflevel) + 0x80) 8
  { response := responseNew, level := levelCorrected, lastbit := bit,
    flastlevel := levelCorrected, lpflevel := lowPassNew }

/-- The spec's reading of bit extraction: the bit at position i of the
byte, for i = 0 .. 7, LSB-first. -/
def specByteBits (byte : Nat) : List Bool :=
  (List.range 8).map fun i => byte.testBit i

/-- The spec's per-bit algorithm run over a bit sequence. -/
def specDecodeBits : DFPWM → List Bool → DFPWM × List Int
  | s, [] => (s, [])
  | s, b :: bs =>
    let s1 := specBitStep s b
    let r := specDecodeBits s1 bs
    (r.1, s1.lpflevel :: r.2)

/-- The decode contract as the spec states it: each byte contributes its
8 bits LSB-first, and each bit goes through the section 4.1 per-bit
algorithm. -/
def specDecode (s : DFPWM) (bytes : List Nat) : DFPWM × List Int :=
  specDecodeBits s (bytes.flatMap specByteBits)

/-- The reachable-state invariant of the decoder: response within
[0, MAX_RESPONSE] and the three level-valued fields within the signed
8-bit range. -/
def DecoderInv (s : DFPWM) : Prop :=
  0 ≤ s.response ∧ s.response ≤ MAX_RESPONSE ∧
  -128 ≤ s.level ∧ s.level ≤ 127 ∧
  -128 ≤ s.flastlevel ∧ s.flastlevel ≤ 127 ∧
  -128 ≤ s.lpflevel ∧ s.lpflevel ≤ 127

/-- The response values that actually occur: 0 in the freshly
constructed state and until the first update fires, and clamped into
[MIN_RESPONSE, MAX_RESPONSE] from then on. -/
def respOK (r : Int) : Prop :=
  r = 0 ∨ (MIN_RESPONSE ≤ r ∧ r ≤ MAX_RESPONSE)

/-
Event-trace embedding of the streaming playback pipeline
(playUrlStreamed, unnamed source file lines 480-538, and stop, lines
411-430).  playUrlStreamed captures playId = ++playbackId, then awaits
a fetch and a sequence of reader.read() results.  Each await either
yields a value or throws; stop() and any newer playback request bump
the global playbackId (and abort the in-flight controller, which makes
a pending await throw AbortError).  A trace records, for every await,
what it produced and the value the global playbackId had at that
moment; the embedding replays the function body over the trace.
-/

/-- The two kinds of rejection a fetch or reader.read await can deliver:
an AbortError from the aborted controller, or a genuine transport
failure (err.name is anything else). -/
inductive JsError
  | abortError
  | netError
deriving Repr, DecidableEq

/-- What the awaited fetch produced: a response with its ok flag, or a
rejection; pid is the global playbackId when the await resumed. -/
inductive FetchEvent
  | resolved (ok : Bool) (pid : Nat)
  | rejected (e : JsError) (pid : Nat)
deriving Repr, DecidableEq

/-- What one awaited reader.read() produced: a chunk of bytes, the done
signal, or a rejection; pid is the global playbackId when the await
resumed. -/
inductive ReadEvent
  | readChunk (bytes : List Nat) (pid : Nat)
  | readDone (pid : Nat)
  | readThrow (e : JsError) (pid : Nat)
deriving Repr, DecidableEq

/-- How one playUrlStreamed invocation ends, as observable by its
caller and by the shared playback state: playBuffered was handed the
accumulated samples; or the function returned quietly (a swallowed
abort); or it raised a rethrown fetch/read error; or it raised the
HTTP-status error it constructs itself; or the trace ended with the
stream still open. -/
inductive Outcome
  | delivered (samples : List ℚ)
  | returned
  | raisedErr (e : JsError)
  | raisedHttp
  | pending
deriving Repr, DecidableEq

/-- The while-true read loop of playUrlStreamed (lines 512-534) plus the
checks after it (lines 536-537): on done, break and hand the buffer to
playBuffered unless a newer playback id is observed; on a chunk, decode
it, append the samples to the local buffer, then return quietly if a
newer playback id is observed; on a rejection, return quietly if it is
an AbortError or a newer playback id is observed, otherwise rethrow. -/
def readLoop (playId : Nat) : DFPWM → List ℚ → List ReadEvent → Outcome
  | _, _, [] => Outcome.pending
  | _, acc, ReadEvent.readDone pid :: _ =>
    if playId ≠ pid then Outcome.returned else Outcome.delivered acc
  | dec, acc, ReadEvent.readChunk bytes pid :: rest =>
    let pcm := dec.decodeSamples bytes
    if playId ≠ pid then Outcome.returned
    else readLoop playId (dec.decode bytes).1 (acc ++ pcm) rest
  | _, _, ReadEvent.readThrow e pid :: _ =>
    if e = JsError.abortError ∨ playId ≠ pid then Outcome.returned
    else Outcome.raisedErr e

/-- playUrlStreamed (lines 480-538) over a trace: the awaited fetch
first — a rejection is swallowed when it is an AbortError or a newer
playback id is observed and rethrown otherwise (lines 495-501), a
response with ok false raises the HTTP error (lines 502-505) — then a
fresh DFPWM decoder instance drives the read loop (lines 507-537). -/
def playUrlStreamed (playId : Nat) (fetch : FetchEvent) (reads : List ReadEvent) : Outcome :=
  match fetch with
  | FetchEvent.rejected e pid =>
    if e = JsError.abortError ∨ playId ≠ pid then Outcome.returned
    else Outcome.raisedErr e
  | FetchEvent.resolved ok _ =>
    if !ok then Outcome.raisedHttp
    else readLoop playId DFPWM.new [] reads

/-- MIN_RESPONSE evaluates to 8. -/
theorem MIN_RESPONSE_eq : MIN_RESPONSE = 8 := rfl

/-- MAX_RESPONSE evaluates to 1023. -/
theorem MAX_RESPONSE_eq : MAX_RESPONSE = 1023 := rfl

/-- RESP_HALF evaluates to 512. -/
theorem RESP_HALF_eq : RESP_HALF = 512 := rfl

/-- The integrator shift divides by 1024. -/
theorem sar_resp (x : Int) : sar x RESP_PREC = x / 1024 := rfl

/-- The low-pass shift divides by 256. -/
theorem sar_lpf (x : Int) : sar x 8 = x / 256 := rfl

/-- The blend shift divides by 2. -/
theorem sar_one (x : Int) : sar x 1 = x / 2 := rfl

/-- decodeBits distributes over list append: running the tail from the
state the head left behind. -/
theorem decodeBits_append (xs ys : List Bool) : ∀ s : DFPWM,
    s.decodeBits (xs ++ ys) =
      (((s.decodeBits xs).1.decodeBits ys).1,
        (s.decodeBits xs).2 ++ ((s.decodeBits xs).1.decodeBits ys).2) := by
  induction xs with
  | nil => intro s; simp [DFPWM.decodeBits]
  | cons b bs ih =>
    intro s
    simp [DFPWM.decodeBits, ih]

/-- decode distributes over list append: decoding a concatenation is
decoding the first part and then the second from the carried state. -/
theorem decode_append (xs ys : List Nat) : ∀ s : DFPWM,
    s.decode (xs ++ ys) =
      (((s.decode xs).1.decode ys).1,
        (s.decode xs).2 ++ ((s.decode xs).1.decode ys).2) := by
  induction xs with
  | nil => intro s; simp [DFPWM.decode]
  | cons byte rest ih =>
    intro s
    simp [DFPWM.decode, ih]

/-- The chunked multi-call form equals the single call on the
concatenation, for every starting state. -/
theorem decodeChunks_eq_decode_flatten (chunks : List (List Nat)) : ∀ s : DFPWM,
    s.decodeChunks chunks = s.decode chunks.flatten := by
  induction chunks with
  | nil => intro s; simp [DFPWM.decodeChunks, DFPWM.decode]
  | cons c cs ih =>
    intro s
    simp [DFPWM.decodeChunks, List.flatten_cons, decode_append, ih]

/-- decode is decodeBits over the LSB-first bit stream of the bytes. -/
theorem decode_eq_decodeBits (bytes : List Nat) : ∀ s : DFPWM,
    s.decode bytes = s.decodeBits (bytes.flatMap byteBits) := by
  induction bytes with
  | nil => intro s; simp [DFPWM.decode, DFPWM.decodeBits]
  | cons byte rest ih =>
    intro s
    simp [DFPWM.decode, List.flatMap_cons, decodeBits_append, ih]

/-- Every byte yields exactly n bits from n shift iterations. -/
theorem byteBitsAux_length : ∀ (n byte : Nat), (byteBitsAux byte n).length = n := by
  intro n
  induction n with
  | zero => intro byte; rfl
  | succ m ih => intro byte; simp [byteBitsAux, ih]

/-- Every byte yields exactly 8 bits. -/
theorem byteBits_length (byte : Nat) : (byteBits byte).length = 8 :=
  byteBitsAux_length 8 byte

/-- decodeBits emits one stored sample per bit. -/
theorem decodeBits_length (bits : List Bool) : ∀ s : DFPWM,
    (s.decodeBits bits).2.length = bits.length := by
  induction bits with
  | nil => intro s; rfl
  | cons b bs ih => intro s; simp [DFPWM.decodeBits, ih]

/-- decode emits exactly 8 stored samples per input byte. -/
theorem decode_length (bytes : List Nat) : ∀ s : DFPWM,
    (s.decode bytes).2.length = 8 * bytes.length := by
  induction bytes with
  | nil => intro s; simp [DFPWM.decode]
  | cons byte rest ih =>
    intro s
    simp [DFPWM.decode, ih, decodeBits_length, byteBits_length]
    ring

/-- Integrator bound, positive target: with response in [0, 1023] the
update step never moves level below its old value nor above 127. -/
theorem integ_bound_pos (r lvl : Int) (hr0 : 0 ≤ r) (hr1 : r ≤ 1023)
    (h1 : lvl ≤ 127) :
    lvl ≤ lvl + (r * (127 - lvl) + 512) / 1024 ∧
      lvl + (r * (127 - lvl) + 512) / 1024 ≤ 127 := by
  obtain ⟨q, hq⟩ : ∃ q, q = r * (127 - lvl) := ⟨_, rfl⟩
  have hp0 : 0 ≤ q := hq ▸ mul_nonneg hr0 (by omega)
  have hp1 : q ≤ 1023 * (127 - lvl) := hq ▸ mul_le_mul_of_nonneg_right hr1 (by omega)
  rw [← hq]
  omega

/-- Integrator bound, negative target: with response in [0, 1023] the
update step never moves level above its old value nor below -128. -/
theorem integ_bound_neg (r lvl : Int) (hr0 : 0 ≤ r) (hr1 : r ≤ 1023)
    (h0 : -128 ≤ lvl) :
    -128 ≤ lvl + (r * (-128 - lvl) + 512) / 1024 ∧
      lvl + (r * (-128 - lvl) + 512) / 1024 ≤ lvl := by
  obtain ⟨q, hq⟩ : ∃ q, q = r * (-128 - lvl) := ⟨_, rfl⟩
  have hp0 : q ≤ 0 := by
    have h := mul_le_mul_of_nonneg_left (show (-128 - lvl : Int) ≤ 0 by omega) hr0
    simpa [hq] using h
  have hp1 : 1023 * (-128 - lvl) ≤ q := hq ▸ mul_le_mul_of_nonpos_right hr1 (by omega)
  rw [← hq]
  omega

/-- One decodeBit step preserves the reachable-state invariant. -/
theorem decodeBit_inv (s : DFPWM) (bit : Bool) (h : DecoderInv s) :
    DecoderInv (s.decodeBit bit) := by
  obtain ⟨r, lvl, lb, fl, lp⟩ := s
  obtain ⟨h1, h2, h3, h4, h5, h6, h7, h8⟩ := h
  simp only [MAX_RESPONSE_eq] at h2
  cases bit <;> cases lb <;>
    simp only [DFPWM.decodeBit, DecoderInv, sar, MAX_RESPONSE_eq, MIN_RESPONSE_eq,
      RESP_HALF_eq, LPF_STRENGTH, RESP_PREC, Bool.false_eq_true, if_false, if_true,
      beq_self_eq_true, Bool.true_eq_false, beq_iff_eq] at h1 h2 h3 h4 h5 h6 h7 h8 ⊢
  case false.false =>
    have hi := integ_bound_neg r lvl h1 h2 h3
    split_ifs <;> omega
  case false.true =>
    have hi := integ_bound_neg r lvl h1 h2 h3
    split_ifs <;> omega
  case true.false =>
    have hi := integ_bound_pos r lvl h1 h2 h4
    split_ifs <;> omega
  case true.true =>
    have hi := integ_bound_pos r lvl h1 h2 h4
    split_ifs <;> omega

/-- The freshly constructed decoder satisfies the invariant. -/
theorem new_inv : DecoderInv DFPWM.new := by
  simp [DecoderInv, DFPWM.new, MAX_RESPONSE_eq]

/-- decodeBits preserves the invariant and every stored sample it emits
lies in the signed 8-bit range. -/
theorem decodeBits_inv (bits : List Bool) : ∀ s : DFPWM, DecoderInv s →
    DecoderInv (s.decodeBits bits).1 ∧
      ∀ l ∈ (s.decodeBits bits).2, -128 ≤ l ∧ l ≤ 127 := by
  induction bits with
  | nil => intro s hs; exact ⟨hs, by simp [DFPWM.decodeBits]⟩
  | cons b bs ih =>
    intro s hs
    have h1 : DecoderInv (s.decodeBit b) := decodeBit_inv s b hs
    obtain ⟨hstate, hout⟩ := ih (s.decodeBit b) h1
    refine ⟨by simpa [DFPWM.decodeBits] using hstate, ?_⟩
    intro l hl
    simp only [DFPWM.decodeBits, List.mem_cons] at hl
    rcases hl with h | h
    · subst h
      exact ⟨h1.2.2.2.2.2.2.1, h1.2.2.2.2.2.2.2⟩
    · exact hout l h

/-- decode preserves the invariant and every stored sample lies in the
signed 8-bit range. -/
theorem decode_inv (bytes : List Nat) (s : DFPWM) (hs : DecoderInv s) :
    DecoderInv (s.decode bytes).1 ∧
      ∀ l ∈ (s.decode bytes).2, -128 ≤ l ∧ l ≤ 127 := by
  rw [decode_eq_decodeBits]
  exact decodeBits_inv (bytes.flatMap byteBits) s hs

/-- decodeChunks preserves the invariant and every stored sample lies in
the signed 8-bit range. -/
theorem decodeChunks_inv (chunks : List (List Nat)) (s : DFPWM) (hs : DecoderInv s) :
    DecoderInv (s.decodeChunks chunks).1 ∧
      ∀ l ∈ (s.decodeChunks chunks).2, -128 ≤ l ∧ l ≤ 127 := by
  rw [decodeChunks_eq_decode_flatten]
  exact decode_inv chunks.flatten s hs

/-- A stored sample in the signed 8-bit range scales to a float sample
in [-1, 1]. -/
theorem sampleOfLevel_range (l : Int) (h0 : -128 ≤ l) (h1 : l ≤ 127) :
    -1 ≤ sampleOfLevel l ∧ sampleOfLevel l ≤ 1 := by
  have hq0 : (-128 : ℚ) ≤ (l : ℚ) := by exact_mod_cast h0
  have hq1 : (l : ℚ) ≤ 127 := by exact_mod_cast h1
  unfold sampleOfLevel SCALE
  constructor <;> nlinarith

/-- One decodeBit step sends a respOK response to a respOK response. -/
theorem decodeBit_respOK (s : DFPWM) (bit : Bool) (h : respOK s.response) :
    respOK ((s.decodeBit bit).response) := by
  obtain ⟨r, lvl, lb, fl, lp⟩ := s
  simp only [respOK, MIN_RESPONSE_eq, MAX_RESPONSE_eq] at h ⊢
  cases bit <;> cases lb <;>
    simp only [DFPWM.decodeBit, MAX_RESPONSE_eq, MIN_RESPONSE_eq, Bool.false_eq_true,
      if_false, if_true, beq_self_eq_true, Bool.true_eq_false, beq_iff_eq] <;>
    split_ifs <;> omega

/-- decodeBits sends a respOK response to a respOK response. -/
theorem decodeBits_respOK (bits : List Bool) : ∀ s : DFPWM, respOK s.response →
    respOK ((s.decodeBits bits).1.response) := by
  induction bits with
  | nil => intro s hs; exact hs
  | cons b bs ih =>
    intro s hs
    simpa [DFPWM.decodeBits] using ih (s.decodeBit b) (decodeBit_respOK s b hs)

/-- The shift-and-mask loop extracts exactly the testBit reading of the
byte, position by position. -/
theorem byteBitsAux_eq_testBit : ∀ (n byte : Nat),
    byteBitsAux byte n = (List.range n).map fun i => byte.testBit i := by
  intro n
  induction n with
  | zero => intro byte; rfl
  | succ m ih =>
    intro byte
    rw [List.range_succ_eq_map]
    simp only [byteBitsAux, List.map_cons, List.map_map, Nat.testBit_zero]
    refine congrArg₂ _ rfl ?_
    rw [ih (byte / 2)]
    refine congrArg₂ _ ?_ rfl
    funext i
    simp [Nat.testBit_succ]

/-- The code's bit extraction agrees with the spec's LSB-first reading. -/
theorem byteBits_eq_specByteBits (byte : Nat) : byteBits byte = specByteBits byte :=
  byteBitsAux_eq_testBit 8 byte

/-- The code's per-bit body and the spec's per-bit algorithm are the
same state transformer. -/
theorem decodeBit_eq_specBitStep (s : DFPWM) (bit : Bool) :
    s.decodeBit bit = specBitStep s bit := rfl

/-- decodeBits and the spec's bit-sequence run coincide. -/
theorem decodeBits_eq_specDecodeBits (bits : List Bool) : ∀ s : DFPWM,
    s.decodeBits bits = specDecodeBits s bits := by
  induction bits with
  | nil => intro s; rfl
  | cons b bs ih =>
    intro s
    simp [DFPWM.decodeBits, specDecodeBits, ih, decodeBit_eq_specBitStep]

/-- decode coincides with the spec's contract of section 4.1. -/
theorem decode_eq_specDecode (bytes : List Nat) (s : DFPWM) :
    s.decode bytes = specDecode s bytes := by
  rw [decode_eq_decodeBits, specDecode, decodeBits_eq_specDecodeBits]
  have h : byteBits = specByteBits := funext byteBits_eq_specByteBits
  rw [h]

/-- C1: Chunking invariance — feeding the chunks one at a time to decode
on a single freshly constructed DFPWM decoder instance and concatenating
the outputs yields, state and sample for sample, the same result as one
decode call on the full concatenated byte sequence from a fresh
instance, for every chunk boundary choice. -/
theorem chunking_invariance (chunks : List (List Nat)) :
    DFPWM.new.decodeChunks chunks = DFPWM.new.decode chunks.flatten ∧
      DFPWM.new.decodeChunksSamples chunks = DFPWM.new.decodeSamples chunks.flatten := by
  refine ⟨decodeChunks_eq_decode_flatten chunks DFPWM.new, ?_⟩
  unfold DFPWM.decodeChunksSamples DFPWM.decodeSamples
  rw [decodeChunks_eq_decode_flatten]

/-- C2: Per-bit algorithm correctness — for every decoder state the
code's per-bit body equals the spec's section 4.1 per-bit algorithm
(integrator update with arithmetic shift and one-short correction,
adaptive response with conditional clamp, low-pass blend and filter),
decode processes each byte LSB-first with 8 bits per byte exactly as the
spec's per-bit run, and the emitted float sample is lowPassLevel * (1/128). -/
theorem per_bit_algorithm_correct :
    (∀ (s : DFPWM) (bit : Bool), s.decodeBit bit = specBitStep s bit) ∧
      (∀ (s : DFPWM) (bytes : List Nat), s.decode bytes = specDecode s bytes) ∧
      ∀ (s : DFPWM) (bytes : List Nat),
        s.decodeSamples bytes = (specDecode s bytes).2.map sampleOfLevel := by
  refine ⟨decodeBit_eq_specBitStep, fun s bytes => decode_eq_specDecode bytes s, ?_⟩
  intro s bytes
  unfold DFPWM.decodeSamples
  rw [decode_eq_specDecode]

/-- C3: Length law — the stored-sample trace and the emitted float
sample sequence of one decode call have length exactly 8 times the
number of input bytes, for every input and every decoder state,
including length 0 for a zero-length input. -/
theorem length_law (s : DFPWM) (bytes : List Nat) :
    (s.decode bytes).2.length = 8 * bytes.length ∧
      (s.decodeSamples bytes).length = 8 * bytes.length := by
  refine ⟨decode_length bytes s, ?_⟩
  unfold DFPWM.decodeSamples
  simp [decode_length bytes s]

/-- C8: Empty-input frame condition — decode on a zero-length byte
sequence returns an empty output and returns the state unchanged in all
five fields, for every starting state; decode is a total function of
state and bytes, so no input raises an error. -/
theorem empty_input_frame (s : DFPWM) :
    s.decode [] = (s, []) ∧ s.decodeSamples [] = [] :=
  ⟨rfl, rfl⟩

/-- C10: Implicit level invariant — decode over bytes is decodeBits over
the LSB-first bit stream, and after every bit processed from the freshly
constructed decoder the level field stays within the signed 8-bit range
[-128, 127]: the integrator step never moves level past the current
target and the one-short correction can only raise it exactly to the
target. -/
theorem level_invariant :
    (∀ (s : DFPWM) (bytes : List Nat), s.decode bytes = s.decodeBits (bytes.flatMap byteBits)) ∧
      ∀ bits : List Bool,
        -128 ≤ (DFPWM.new.decodeBits bits).1.level ∧
          (DFPWM.new.decodeBits bits).1.level ≤ 127 := by
  refine ⟨fun s bytes => decode_eq_decodeBits bytes s, fun bits => ?_⟩
  have h := (decodeBits_inv bits DFPWM.new new_inv).1
  exact ⟨h.2.2.1, h.2.2.2.1⟩

/-- C4 counterexample: the claim that response lies in [8, 1023] at all
times fails on the code — the constructor sets response = 0, and
processing a 1 bit from the fresh state (a polarity transition with
response already at its target 0) leaves response = 0, outside
[MIN_RESPONSE, MAX_RESPONSE]. -/
theorem response_invariant_counterexample :
    DFPWM.new.response = 0 ∧ ¬ MIN_RESPONSE ≤ DFPWM.new.response ∧
      (DFPWM.new.decodeBits [true]).1.response = 0 ∧
      ¬ MIN_RESPONSE ≤ (DFPWM.new.decodeBits [true]).1.response := by
  decide

/-- C4 amended: response is 0 or in [MIN_RESPONSE, MAX_RESPONSE] in the
fresh state and after every bit processed from the fresh state; the
clamp into [MIN_RESPONSE, MAX_RESPONSE] is enforced exactly when the
update fires, i.e. when response differed from its target. -/
theorem response_invariant_amended :
    respOK DFPWM.new.response ∧
      (∀ bits : List Bool, respOK ((DFPWM.new.decodeBits bits).1.response)) ∧
      ∀ (s : DFPWM) (bit : Bool),
        s.response ≠ (if bit == s.lastbit then MAX_RESPONSE else 0) →
          MIN_RESPONSE ≤ (s.decodeBit bit).response ∧
            (s.decodeBit bit).response ≤ MAX_RESPONSE := by
  refine ⟨Or.inl rfl, fun bits => decodeBits_respOK bits DFPWM.new (Or.inl rfl), ?_⟩
  intro s bit h
  obtain ⟨r, lvl, lb, fl, lp⟩ := s
  cases bit <;> cases lb <;>
    simp only [DFPWM.decodeBit, MAX_RESPONSE_eq, MIN_RESPONSE_eq, Bool.false_eq_true,
      if_false, if_true, beq_self_eq_true, Bool.true_eq_false, beq_iff_eq] at h ⊢ <;>
    split_ifs <;> omega

/-- C4 witness: the amended clamp statement at the fresh state and a 0
bit, where the update fires. -/
theorem response_invariant_witness :
    MIN_RESPONSE ≤ (DFPWM.new.decodeBit false).response ∧
      (DFPWM.new.decodeBit false).response ≤ MAX_RESPONSE :=
  response_invariant_amended.2.2 DFPWM.new false (by decide)

/-- C5: Range law — every float sample emitted for a freshly constructed
decoder, across any number of chunked decode calls, lies in the closed
range [-1, 1] (the stored lpflevel stays within [-128, 127], so the
scaled sample stays within [-1, 127/128]). -/
theorem sample_range_law (chunks : List (List Nat)) (i : Nat) :
    -1 ≤ (DFPWM.new.decodeChunksSamples chunks).getD i 0 ∧
      (DFPWM.new.decodeChunksSamples chunks).getD i 0 ≤ 1 := by
  have hlev := (decodeChunks_inv chunks DFPWM.new new_inv).2
  have key : ∀ q ∈ DFPWM.new.decodeChunksSamples chunks, -1 ≤ q ∧ q ≤ 1 := by
    intro q hq
    obtain ⟨l, hl, hEq⟩ := List.mem_map.1 hq
    rw [← hEq]
    exact sampleOfLevel_range l (hlev l hl).1 (hlev l hl).2
  by_cases h : i < (DFPWM.new.decodeChunksSamples chunks).length
  · refine key _ ?_
    rw [List.getD_eq_getElem _ _ h]
    exact List.getElem_mem h
  · rw [List.getD_eq_default _ _ (by omega)]
    norm_num

/-- C6 counterexample: the claim that the first output sample for the
byte 0xFF from a fresh decoder is strictly positive fails — response
starts at 0, so the integrator and the low-pass filter do not move on
the first bit and the first emitted sample is exactly 0. -/
theorem all_ones_first_sample_counterexample :
    (DFPWM.new.decodeSamples [255]).getD 0 1 = 0 ∧
      ¬ 0 < (DFPWM.new.decodeSamples [255]).getD 0 1 := by
  have h : (DFPWM.new.decode [255]).2 = [0, 0, 1, 2, 3, 4, 5, 6] := by decide
  unfold DFPWM.decodeSamples
  rw [h]
  norm_num [sampleOfLevel, SCALE]

/-- C6 amended: decoding the byte 0xFF on a fresh decoder produces the 8
samples 0, 0, 1/128, ..., 6/128 — a non-decreasing run trending toward
the positive rail — whose first strictly positive entry is the third
sample (index 2), not the first; the last sample is strictly positive. -/
theorem all_ones_vector_amended :
    DFPWM.new.decodeSamples [255] =
        [0, 0, 1/128, 2/128, 3/128, 4/128, 5/128, 6/128] ∧
      List.Chain' (· ≤ ·) (DFPWM.new.decodeSamples [255]) ∧
      (DFPWM.new.decodeSamples [255]).getD 0 1 = 0 ∧
      (DFPWM.new.decodeSamples [255]).getD 1 1 = 0 ∧
      0 < (DFPWM.new.decodeSamples [255]).getD 2 0 ∧
      0 < (DFPWM.new.decodeSamples [255]).getD 7 0 := by
  have h : (DFPWM.new.decode [255]).2 = [0, 0, 1, 2, 3, 4, 5, 6] := by decide
  have hs : DFPWM.new.decodeSamples [255] =
      [0, 0, 1/128, 2/128, 3/128, 4/128, 5/128, 6/128] := by
    unfold DFPWM.decodeSamples
    rw [h]
    norm_num [sampleOfLevel, SCALE]
  refine ⟨hs, ?_, ?_, ?_, ?_, ?_⟩ <;> rw [hs] <;>
    norm_num [List.chain'_cons, List.chain'_singleton]

/-- C7: All-zero vector — decoding the byte 0x00 on a freshly
constructed decoder (response 0, level 0, lastbit false, flastlevel 0,
lpflevel 0) produces exactly the 8 samples 0, -1/128, ..., -6/128,
-8/128, a monotonically non-increasing run trending toward the negative
rail. -/
theorem all_zero_vector :
    DFPWM.new.decodeSamples [0] =
        [0, -1/128, -2/128, -3/128, -4/128, -5/128, -6/128, -8/128] ∧
      List.Chain' (· ≥ ·) (DFPWM.new.decodeSamples [0]) := by
  have h : (DFPWM.new.decode [0]).2 = [0, -1, -2, -3, -4, -5, -6, -8] := by decide
  have hs : DFPWM.new.decodeSamples [0] =
      [0, -1/128, -2/128, -3/128, -4/128, -5/128, -6/128, -8/128] := by
    unfold DFPWM.decodeSamples
    rw [h]
    norm_num [sampleOfLevel, SCALE]
  refine ⟨hs, ?_⟩
  rw [hs]
  norm_num [List.chain'_cons, List.chain'_singleton, ge_iff_le]

/-- The read loop of playUrlStreamed never lets an AbortError escape:
every rethrow path first swallows AbortError and supersession. -/
theorem readLoop_no_abort_raised (evs : List ReadEvent) :
    ∀ (playId : Nat) (dec : DFPWM) (acc : List ℚ),
      readLoop playId dec acc evs ≠ Outcome.raisedErr JsError.abortError := by
  induction evs with
  | nil => intro playId dec acc; simp [readLoop]
  | cons ev rest ih =>
    intro playId dec acc
    cases ev with
    | readDone pid =>
      simp only [readLoop]
      split_ifs <;> simp
    | readChunk bytes pid =>
      simp only [readLoop]
      split_ifs
      · simp
      · exact ih playId _ _
    | readThrow e pid =>
      simp only [readLoop]
      split_ifs with hcond
      · simp
      · intro hEq
        injection hEq with hE
        push_neg at hcond
        exact hcond.1 hE

/-- C9: Abort is not an error — whenever the playUrlStreamed pipeline
raises an AbortError at an await or observes a newer playback id at a
checkpoint, it returns quietly without handing a buffer to the sink, and
an AbortError never propagates to the caller's error path; the only
rejections that are rethrown are genuine transport failures. -/
theorem abort_not_error :
    (∀ (playId : Nat) (fetch : FetchEvent) (reads : List ReadEvent),
        playUrlStreamed playId fetch reads ≠ Outcome.raisedErr JsError.abortError) ∧
      (∀ (playId pid : Nat) (reads : List ReadEvent),
        playUrlStreamed playId (FetchEvent.rejected JsError.abortError pid) reads =
          Outcome.returned) ∧
      (∀ (playId pid : Nat) (e : JsError) (reads : List ReadEvent), playId ≠ pid →
        playUrlStreamed playId (FetchEvent.rejected e pid) reads = Outcome.returned) ∧
      (∀ (playId pid : Nat) (dec : DFPWM) (acc : List ℚ) (rest : List ReadEvent),
        readLoop playId dec acc (ReadEvent.readThrow JsError.abortError pid :: rest) =
          Outcome.returned) ∧
      (∀ (playId pid : Nat) (dec : DFPWM) (acc : List ℚ) (bytes : List Nat)
          (rest : List ReadEvent), playId ≠ pid →
        readLoop playId dec acc (ReadEvent.readChunk bytes pid :: rest) =
          Outcome.returned) ∧
      ∀ (playId pid : Nat) (dec : DFPWM) (acc : List ℚ) (rest : List ReadEvent),
        playId ≠ pid →
          readLoop playId dec acc (ReadEvent.readDone pid :: rest) = Outcome.returned := by
  refine ⟨?_, ?_, ?_, ?_, ?_, ?_⟩
  · intro playId fetch reads
    cases fetch with
    | rejected e pid =>
      simp only [playUrlStreamed]
      split_ifs with hcond
      · simp
      · intro hEq
        injection hEq with hE
        push_neg at hcond
        exact hcond.1 hE
    | resolved ok pid =>
      simp only [playUrlStreamed]
      split_ifs
      · simp
      · exact readLoop_no_abort_raised reads playId DFPWM.new []
  · intro playId pid reads
    simp [playUrlStreamed]
  · intro playId pid e reads hne
    simp [playUrlStreamed, hne]
  · intro playId pid dec acc rest
    simp [readLoop]
  · intro playId pid dec acc bytes rest hne
    simp [readLoop, hne]
  · intro playId pid dec acc rest hne
    simp [readLoop, hne]

/-- C9 witness: a superseded chunk arrival (captured id 1, current id 2)
returns quietly. -/
theorem abort_not_error_witness :
    readLoop 1 DFPWM.new [] [ReadEvent.readChunk [255] 2] = Outcome.returned :=
  abort_not_error.2.2.2.2.1 1 2 DFPWM.new [] [255] [] (by decide)
